import Mathlib

/-!
Verification of the atomic batched queue fetcher (`fetcher/fetcher.go`).

The component has three pieces:
* the Lua script `extractCommand`, which pops up to `max_tasks` elements
  from the head of the Redis list `KEYS[1]` and returns them as an array;
* the constant `maxTask = 1000`, the fixed per-call cap;
* the method `Fetch`, which runs the script with the caller's keys, and on
  success walks the returned array: string elements are JSON-unmarshalled
  into `T` (a failed unmarshal skips the element); non-string elements fall
  through the type assertion and append the zero value of `T`.

The embedding below models a Redis store as a function from keys to lists
of strings (head of the list = oldest element), the values produced by the
Redis client as the inductive `RValue`, the generic JSON codec for `T` as a
parameter `decode : String → Option T` together with the zero value of `T`,
and a Go slice (which may be nil) as `GoSlice`.  Because the script runs as
one indivisible server-side operation, any set of concurrent `Fetch` calls
is equivalent to executing the script in some serial order; concurrency is
therefore modelled as an arbitrary serialization (`runCalls`).
-/

/-- Runtime values the Go Redis client can hand back as `interface{}`:
strings, integers, nested arrays, or a nil reply. -/
inductive RValue : Type where
  | str : String → RValue
  | int : Int → RValue
  | arr : List RValue → RValue
  | nil : RValue

/-- The Go type assertion `task.(string)`: succeeds exactly on `str`. -/
def RValue.isString : RValue → Bool
  | RValue.str _ => true
  | _ => false

/-- A Go slice of `T`: either the nil slice or a concrete list of elements. -/
inductive GoSlice (T : Type) : Type where
  | nil : GoSlice T
  | mk : List T → GoSlice T
deriving DecidableEq, Repr

/-- Go's `len` on a slice: the nil slice has length 0. -/
def GoSlice.length {T : Type} : GoSlice T → Nat
  | GoSlice.nil => 0
  | GoSlice.mk xs => xs.length

/-- The elements of a Go slice; the nil slice has none. -/
def GoSlice.toList {T : Type} : GoSlice T → List T
  | GoSlice.nil => []
  | GoSlice.mk xs => xs

/-- The Lua script `extractCommand`: starting from the queue `q`, run the
`for i = 1, max_tasks` loop, each iteration executing `LPOP` (remove the
head); if the pop returns nil the loop breaks.  The result is the pair of
the collected tasks (in pop order) and the remaining queue. -/
def extractCommand : Nat → List String → List String × List String
  | 0, q => ([], q)
  | _ + 1, [] => ([], [])
  | n + 1, task :: rest =>
      let r := extractCommand n rest
      (task :: r.1, r.2)

/-- `maxTask = 1000`, the fixed cap `Fetch` passes to the script. -/
def maxTask : Nat := 1000

/-- Errors a script run can surface to `Fetch`: context cancellation, or a
store/transport error. -/
inductive FetchErr : Type where
  | canceled : FetchErr
  | storeErr : String → FetchErr
deriving DecidableEq, Repr

/-- The caller's context, reduced to the one bit `Fetch` is sensitive to:
whether it has already been canceled when the round trip is dispatched. -/
structure Ctx : Type where
  canceled : Bool
deriving DecidableEq, Repr

/-- The remote store: each key names a list of raw string payloads, head of
the list being the oldest element. -/
def Store : Type := String → List String

/-- One run of `extractCommand.Run(ctx, rdb, keys, maxTask)`: a canceled
context fails before any queue mutation; an empty key list makes the script
fault (`KEYS[1]` is nil); otherwise the script executes atomically on the
first key, returning the popped payloads as an array of strings and the
mutated store. -/
def runExtract (ctx : Ctx) (store : Store) (keys : List String) (maxTasks : Nat) :
    Except FetchErr RValue × Store :=
  if ctx.canceled then (Except.error FetchErr.canceled, store)
  else
    match keys with
    | [] => (Except.error (FetchErr.storeErr "KEYS[1] is nil"), store)
    | key :: _ =>
        let r := extractCommand maxTasks (store key)
        (Except.ok (RValue.arr (r.1.map RValue.str)),
         fun k => if k = key then r.2 else store k)

/-- The per-item loop of `Fetch` (lines 80–101): for each element, `out`
starts as the zero value of `T`; a string element is unmarshalled, with a
failed unmarshal executing `continue`; after the string block, `*out` is
appended — so a successful decode appends the decoded value, while a
non-string element appends the zero value untouched. -/
def decodeLoop {T : Type} (decode : String → Option T) (zero : T) :
    List RValue → List T
  | [] => []
  | task :: rest =>
      match task with
      | RValue.str value =>
          match decode value with
          | some out => out :: decodeLoop decode zero rest
          | none => decodeLoop decode zero rest
      | _ => zero :: decodeLoop decode zero rest

/-- Lines 75–102 of `Fetch`: `tasks := make([]T, 0)`; if the script result
is a `[]interface{}` with at least one element, run the per-item loop,
otherwise leave `tasks` empty. -/
def processResult {T : Type} (decode : String → Option T) (zero : T)
    (result : RValue) : List T :=
  match result with
  | RValue.arr results =>
      if results.length > 0 then decodeLoop decode zero results else []
  | _ => []

/-- Lines 64–107 of `Fetch`, as a function of the script run's outcome: a
failed run returns `(nil, err)`; a successful run returns the processed
batch (a non-nil slice) and a nil error. -/
def fetchResult {T : Type} (decode : String → Option T) (zero : T) :
    Except FetchErr RValue → GoSlice T × Option FetchErr
  | Except.error e => (GoSlice.nil, some e)
  | Except.ok result => (GoSlice.mk (processResult decode zero result), none)

/-- The full method `RedisFetcher.Fetch`: run the script with the caller's
context, store and keys at cap `maxTask`, then process the outcome.  The
second component is the store after the call. -/
def Fetch {T : Type} (decode : String → Option T) (zero : T)
    (ctx : Ctx) (store : Store) (keys : List String) :
    (GoSlice T × Option FetchErr) × Store :=
  let r := runExtract ctx store keys maxTask
  (fetchResult decode zero r.1, r.2)

/-- A serialization of any number of script runs against one queue: each
call pops atomically with its own cap, the next call seeing the remaining
queue.  Returns the list of popped batches and the final queue. -/
def runCalls : List Nat → List String → List (List String) × List String
  | [], q => ([], q)
  | c :: cs, q =>
      let r := extractCommand c q
      let rr := runCalls cs r.2
      (r.1 :: rr.1, rr.2)

/-- The Go type assertion `result.([]interface{})`: succeeds exactly on `arr`. -/
def RValue.isArray : RValue → Bool
  | RValue.arr _ => true
  | _ => false

/-- A concrete sample codec used to exercise the model on closed inputs: it
decodes every string to itself except the distinguished malformed payload
`"bad"`. -/
def sampleDecode (s : String) : Option String :=
  if s = "bad" then none else some s

/-- The script pops exactly the first `min(c, L)` elements: collected
prefix and remaining suffix. -/
theorem extractCommand_eq_take_drop (c : Nat) (q : List String) :
    extractCommand c q = (q.take c, q.drop c) := by
  induction c generalizing q with
  | zero => simp [extractCommand]
  | succ n ih =>
      cases q with
      | nil => simp [extractCommand]
      | cons a rest => simp [extractCommand, ih]

/-- Splitting a single run: popped ++ remaining = original queue. -/
theorem extractCommand_append (c : Nat) (q : List String) :
    (extractCommand c q).1 ++ (extractCommand c q).2 = q := by
  rw [extractCommand_eq_take_drop]
  exact List.take_append_drop c q

/-- The decode loop never produces more elements than it consumes. -/
theorem decodeLoop_length_le {T : Type} (decode : String → Option T) (zero : T)
    (rs : List RValue) :
    (decodeLoop decode zero rs).length ≤ rs.length := by
  induction rs with
  | nil => simp [decodeLoop]
  | cons task rest ih =>
      cases task with
      | str value =>
          cases h : decode value with
          | some out => simpa [decodeLoop, h] using ih
          | none =>
              simp only [decodeLoop, h]
              exact Nat.le_succ_of_le ih
      | int n => simpa [decodeLoop] using ih
      | arr vs => simpa [decodeLoop] using ih
      | nil => simpa [decodeLoop] using ih

/-- When the cap is at least the queue length, the script drains the queue. -/
theorem extractCommand_all (c : Nat) (q : List String) (h : q.length ≤ c) :
    extractCommand c q = (q, []) := by
  rw [extractCommand_eq_take_drop, List.take_of_length_le h,
    List.drop_eq_nil_of_le h]

/-- C1: since the pop script executes as one indivisible operation, any set
of concurrent `Fetch` calls against the same queue key serializes in some
order; for every such serialization, the payload batches removed by the
calls, concatenated, followed by the remaining queue, are exactly the
queue's contents at call time — so as a multiset (second conjunct: per-payload
counts add up) no payload reaches two callers and none is duplicated,
fabricated or lost. -/
theorem runCalls_partition (caps : List Nat) (q : List String) :
    ((runCalls caps q).1.flatten ++ (runCalls caps q).2 = q) ∧
    (∀ p : String,
      ((runCalls caps q).1.flatten).count p + ((runCalls caps q).2).count p =
        q.count p) := by
  have hmain : (runCalls caps q).1.flatten ++ (runCalls caps q).2 = q := by
    induction caps generalizing q with
    | nil => simp [runCalls]
    | cons c cs ih =>
        simp only [runCalls, List.flatten_cons, List.append_assoc]
        rw [ih, extractCommand_append]
  refine ⟨hmain, fun p => ?_⟩
  have h2 := congrArg (List.count p) hmain
  rw [List.count_append] at h2
  exact h2

/-- C2 (divergence witness): the code appends the zero value of `T` for a
popped element that is not a string, instead of dropping it as the spec
requires — on the script result `[42]` the batch is `[zero]`, not `[]`. -/
theorem processResult_nonstring_appends :
    processResult sampleDecode "" (RValue.arr [RValue.int 42]) = [""] ∧
    ([""] : List String) ≠ [] := by
  exact ⟨rfl, by decide⟩

/-- C3: the atomic pop removes and returns exactly the first `min(c, L)`
elements of the queue in stored (oldest-first) order — popped = `take c`,
remainder = `drop c`, popped length = `min c L`; and a `Fetch` against a
queue holding `[a, b, c]` (cap `maxTask = 1000 ≥ 3`) returns exactly the
decoded batch `[ta, tb, tc]` in that order with no error. -/
theorem fetch_fifo {T : Type} (decode : String → Option T) (zero : T)
    (ctx : Ctx) (store : Store) (key : String) (ks : List String)
    (a b c : String) (ta tb tc : T)
    (hctx : ctx.canceled = false)
    (hq : store key = [a, b, c])
    (ha : decode a = some ta) (hb : decode b = some tb)
    (hc : decode c = some tc) :
    (∀ (cap : Nat) (q : List String),
        (extractCommand cap q).1 = q.take cap ∧
        (extractCommand cap q).2 = q.drop cap ∧
        (extractCommand cap q).1.length = min cap q.length) ∧
    (Fetch decode zero ctx store (key :: ks)).1 =
      (GoSlice.mk [ta, tb, tc], none) := by
  constructor
  · intro cap q
    rw [extractCommand_eq_take_drop]
    exact ⟨rfl, rfl, List.length_take cap q⟩
  · have hdrain : extractCommand maxTask (store key) = ([a, b, c], []) := by
      rw [hq]; exact extractCommand_all maxTask [a, b, c] (by simp [maxTask])
    simp [Fetch, runExtract, hctx, hdrain, fetchResult, processResult,
      decodeLoop, ha, hb, hc]

/-- C3 witness: a concrete queue `["a", "b", "c"]` under the sample codec. -/
theorem fetch_fifo_witness :
    (Fetch sampleDecode "" ⟨false⟩ (fun _ => ["a", "b", "c"]) ["q"]).1 =
      (GoSlice.mk ["a", "b", "c"], none) :=
  (fetch_fifo sampleDecode "" ⟨false⟩ (fun _ => ["a", "b", "c"]) "q" []
    "a" "b" "c" "a" "b" "c" rfl rfl (by decide) (by decide) (by decide)).2

/-- C4: on a successful `Fetch`, the returned batch is no longer than the
list of payloads the script actually popped, and the script never pops more
than the internal maximum `maxTask = 1000`. -/
theorem fetch_cap_bound {T : Type} (decode : String → Option T) (zero : T)
    (ctx : Ctx) (store : Store) (key : String) (ks : List String)
    (hctx : ctx.canceled = false) :
    (Fetch decode zero ctx store (key :: ks)).1.1.length ≤
      (extractCommand maxTask (store key)).1.length ∧
    (extractCommand maxTask (store key)).1.length ≤ maxTask := by
  constructor
  · have hF : (Fetch decode zero ctx store (key :: ks)).1.1 =
        GoSlice.mk (processResult decode zero
          (RValue.arr ((extractCommand maxTask (store key)).1.map RValue.str))) := by
      simp [Fetch, runExtract, hctx, fetchResult]
    rw [hF]
    show (processResult decode zero
      (RValue.arr ((extractCommand maxTask (store key)).1.map RValue.str))).length ≤ _
    simp only [processResult]
    split
    · have h := decodeLoop_length_le decode zero
        ((extractCommand maxTask (store key)).1.map RValue.str)
      simpa using h
    · simp
  · rw [extractCommand_eq_take_drop]
    exact List.length_take_le maxTask (store key)

/-- C4 witness: a two-element queue with one malformed payload. -/
theorem fetch_cap_bound_witness :
    (Fetch sampleDecode "" ⟨false⟩ (fun _ => ["a", "bad"]) ["q"]).1.1.length ≤
      (extractCommand maxTask ["a", "bad"]).1.length ∧
    (extractCommand maxTask ["a", "bad"]).1.length ≤ maxTask :=
  fetch_cap_bound sampleDecode "" ⟨false⟩ (fun _ => ["a", "bad"]) "q" [] rfl

/-- C5: a `Fetch` from an empty queue returns the empty non-nil batch and a
nil error; and in general every `Fetch` that reports no error returns a
non-nil (possibly empty) slice, since the success path always starts from
`make([]T, 0)`. -/
theorem fetch_empty_queue {T : Type} (decode : String → Option T) (zero : T)
    (ctx : Ctx) (store : Store) (key : String) (ks : List String)
    (hctx : ctx.canceled = false) (hq : store key = []) :
    (Fetch decode zero ctx store (key :: ks)).1 = (GoSlice.mk [], none) ∧
    ∀ (ctx2 : Ctx) (store2 : Store) (keys : List String),
      (Fetch decode zero ctx2 store2 keys).1.2 = none →
      (Fetch decode zero ctx2 store2 keys).1.1 ≠ GoSlice.nil := by
  constructor
  · have hdrain : extractCommand maxTask (store key) = ([], []) := by
      rw [hq]; exact extractCommand_all maxTask [] (by simp)
    simp [Fetch, runExtract, hctx, hdrain, fetchResult, processResult]
  · intro ctx2 store2 keys h
    cases hr : (runExtract ctx2 store2 keys maxTask).1 with
    | error e => simp [Fetch, hr, fetchResult] at h
    | ok v => simp [Fetch, hr, fetchResult]

/-- C5 witness: the empty queue under the sample codec. -/
theorem fetch_empty_queue_witness :
    (Fetch sampleDecode "" ⟨false⟩ (fun _ => []) ["q"]).1 = (GoSlice.mk [], none) :=
  (fetch_empty_queue sampleDecode "" ⟨false⟩ (fun _ => []) "q" [] rfl rfl).1

/-- C6: when the script run itself fails, `Fetch` returns the nil batch
paired with exactly that error; and every successful run yields a nil
error, so a per-item decode failure can never be the cause of a returned
error. -/
theorem fetch_error_propagation {T : Type} (decode : String → Option T) (zero : T) :
    (∀ e : FetchErr,
      fetchResult decode zero (Except.error e) = (GoSlice.nil, some e)) ∧
    (∀ result : RValue,
      (fetchResult decode zero (Except.ok result)).2 = none) :=
  ⟨fun _ => rfl, fun _ => rfl⟩

/-- C7: the batch, the error and the store mutation of a `Fetch` depend
only on the first key — two calls agreeing on `keys[0]` are
indistinguishable, whatever the remaining keys are. -/
theorem fetch_first_key_only {T : Type} (decode : String → Option T) (zero : T)
    (ctx : Ctx) (store : Store) (key : String) (ks ks2 : List String) :
    Fetch decode zero ctx store (key :: ks) =
      Fetch decode zero ctx store (key :: ks2) := rfl

/-- C8: a `Fetch` whose context is already canceled returns the
cancellation error with an element-free batch and leaves the store
untouched — the round trip is never dispatched. -/
theorem fetch_pre_canceled {T : Type} (decode : String → Option T) (zero : T)
    (ctx : Ctx) (store : Store) (keys : List String)
    (hctx : ctx.canceled = true) :
    (Fetch decode zero ctx store keys).1 =
      (GoSlice.nil, some FetchErr.canceled) ∧
    (Fetch decode zero ctx store keys).1.1.toList = [] ∧
    (Fetch decode zero ctx store keys).2 = store := by
  simp [Fetch, runExtract, hctx, fetchResult, GoSlice.toList]

/-- C8 witness: a canceled context over a one-element queue. -/
theorem fetch_pre_canceled_witness :
    (Fetch sampleDecode "" ⟨true⟩ (fun _ => ["a"]) ["q"]).1 =
      (GoSlice.nil, some FetchErr.canceled) ∧
    (Fetch sampleDecode "" ⟨true⟩ (fun _ => ["a"]) ["q"]).1.1.toList = [] ∧
    (Fetch sampleDecode "" ⟨true⟩ (fun _ => ["a"]) ["q"]).2 = (fun _ => ["a"]) :=
  fetch_pre_canceled sampleDecode "" ⟨true⟩ (fun _ => ["a"]) ["q"] rfl

/-- C9: in the per-item loop, an element whose runtime representation is
not a string falls through the `task.(string)` assertion and appends the
untouched zero value of `T` to the batch, rather than being skipped. -/
theorem decodeLoop_nonstring_zero {T : Type} (decode : String → Option T)
    (zero : T) (task : RValue) (rest : List RValue)
    (h : task.isString = false) :
    decodeLoop decode zero (task :: rest) = zero :: decodeLoop decode zero rest := by
  cases task with
  | str s => simp [RValue.isString] at h
  | int n => rfl
  | arr vs => rfl
  | nil => rfl

/-- C9 witness: the integer reply 42 contributes the zero value. -/
theorem decodeLoop_nonstring_zero_witness :
    decodeLoop sampleDecode "" [RValue.int 42] =
      "" :: decodeLoop sampleDecode "" [] :=
  decodeLoop_nonstring_zero sampleDecode "" (RValue.int 42) [] rfl

/-- C10: when the script result is not an array of values, or is the empty
array, the success path returns the empty non-nil batch and a nil error —
the unexpected shape is not reported as an error. -/
theorem fetch_bad_shape {T : Type} (decode : String → Option T) (zero : T)
    (result : RValue)
    (h : result.isArray = false ∨ result = RValue.arr []) :
    fetchResult decode zero (Except.ok result) = (GoSlice.mk [], none) := by
  cases result with
  | arr rs =>
      rcases h with h | h
      · simp [RValue.isArray] at h
      · injection h with h2
        subst h2
        rfl
  | str s => rfl
  | int n => rfl
  | nil => rfl

/-- C10 witness: the scalar reply 5 yields the empty batch without error. -/
theorem fetch_bad_shape_witness :
    fetchResult sampleDecode "" (Except.ok (RValue.int 5)) = (GoSlice.mk [], none) :=
  fetch_bad_shape sampleDecode "" (RValue.int 5) (Or.inl rfl)
